import Mathlib

/-!
Verification of the document question-answering service in
src/app/services/document_service.py (class DocumentService).

Modelling conventions, used throughout:
* a Python `str` is a `List Char` (Python `len` counts code points, which
  matches `List.length`);
* a Python `int` is an `Int` where negative values are observable (the
  `chunk_size` parameter of `chunk_text`) and a `Nat` where they are not;
* fallible code returns `Except` over the exception message text, matching
  the `raise Exception(f"...: {str(e)}")` wrapping in the source;
* external collaborators that the source calls (the HTTP transport of
  `requests.get`, the pdf/docx parsing libraries, the Gemini backend, the
  filesystem) enter as explicit oracle parameters, so every theorem
  quantifies over their behavior.
-/

/-- Code points of a string literal: the `List Char` view of a Python `str`. -/
def str (s : String) : List Char := s.data

/-- Sentence terminators of the chunker regex `[.!?]+` in `chunk_text`. -/
def isTerm (c : Char) : Bool := c == '.' || c == '!' || c == '?'

/-- Characters removed by Python `str.strip()` (the ASCII ones; all inputs in
this development are ASCII). -/
def isPySpace (c : Char) : Bool :=
  c == ' ' || c == '\t' || c == '\n' || c == '\r' || c == '\x0b' || c == '\x0c'

/-- Python `s.strip()`. -/
def pyStrip (s : List Char) : List Char :=
  ((s.dropWhile isPySpace).reverse.dropWhile isPySpace).reverse

/-- Python `s.lower()` (ASCII). -/
def lower (s : List Char) : List Char := s.map Char.toLower

/-- One pass of `re.split(r'[.!?]+', text)`: the boolean records whether the
previous character belonged to a terminator run, so that a run of consecutive
terminators acts as a single delimiter, exactly as the `+` in the regex. -/
def splitTermAux : Bool → List Char → List (List Char)
  | _, [] => [[]]
  | prevTerm, c :: cs =>
    if isTerm c then
      if prevTerm then splitTermAux true cs
      else [] :: splitTermAux true cs
    else
      match splitTermAux false cs with
      | [] => [[c]]
      | g :: gs => (c :: g) :: gs

/-- Python `re.split(r'[.!?]+', text)`, the first step of `chunk_text`. -/
def splitTerm (text : List Char) : List (List Char) := splitTermAux false text

/-- The stripped, nonempty sentences that the `chunk_text` loop actually
accumulates: every element of the regex split is stripped, and empty results
are skipped by the `if not sentence: continue` guard. -/
def cleanse (l : List (List Char)) : List (List Char) :=
  (l.map pyStrip).filter (fun s => !s.isEmpty)

/-- Sentence segmentation of a text as performed by `chunk_text`: split on runs
of `.`/`!`/`?`, strip, and discard empties. -/
def sentencesOf (text : List Char) : List (List Char) := cleanse (splitTerm text)

/-- The `for sentence in sentences` loop of `chunk_text`: `chunks` is the list
built so far and `cur` is `current_chunk`; the trailing
`if current_chunk: chunks.append(current_chunk)` flush is the base case. -/
def chunkLoop (size : Int) : List (List Char) → List (List Char) → List Char → List (List Char)
  | [], chunks, cur => if cur.isEmpty then chunks else chunks ++ [cur]
  | s :: rest, chunks, cur =>
    let s' := pyStrip s
    if s'.isEmpty then chunkLoop size rest chunks cur
    else if ((cur.length + s'.length : Nat) : Int) < size then
      chunkLoop size rest chunks (cur ++ (s' ++ ['.', ' ']))
    else
      chunkLoop size rest (if cur.isEmpty then chunks else chunks ++ [cur]) (s' ++ ['.', ' '])

/-- `DocumentService.chunk_text(text, chunk_size)`. The Python parameter is an
`int` with default 1000; callers of this definition pass the size
explicitly. -/
def chunk_text (text : List Char) (chunk_size : Int) : List (List Char) :=
  chunkLoop chunk_size (splitTerm text) [] []

/-- The text of the chunk holding the sentence group `g`: every sentence is
re-suffixed with `". "` when accumulated. -/
def mkChunk (g : List (List Char)) : List Char :=
  (g.map (fun s => s ++ ['.', ' '])).flatten

/-- The sentence grouping performed by `chunkLoop`, stated on the cleansed
sentence list: `gcur` is the group of sentences currently sitting in
`current_chunk`.  `chunkLoop` is proved equal to `groupAux` followed by
`mkChunk`; all structural facts about chunks are read off this function. -/
def groupAux (size : Int) : List (List Char) → List (List Char) → List (List (List Char))
  | [], gcur => if gcur.isEmpty then [] else [gcur]
  | s :: rest, gcur =>
    if (((mkChunk gcur).length + s.length : Nat) : Int) < size then
      groupAux size rest (gcur ++ [s])
    else
      (if gcur.isEmpty then [] else [gcur]) ++ groupAux size rest [s]

/-- Leading text of the answer prompt (character-identical in the first
attempt and in the retries). -/
def promptHead : List Char :=
  str "You are an expert document analyzer. Based on the following document content, provide a precise and accurate answer to the question. If the answer cannot be found in the document, say \"I cannot find the answer in the provided document.\"\n\nDocument content:\n"

/-- Prompt text between the document content and the question. -/
def promptMid : List Char := str "\n\nQuestion: "

/-- Trailing text of the answer prompt. -/
def promptTail : List Char :=
  str "\n\nPlease provide a clear, concise answer based solely on the information in the document."

/-- The f-string prompt of `process_document_questions`: the document content
embedded in it is `' '.join(chunks)`. -/
def mkPrompt (chunks : List (List Char)) (question : List Char) : List Char :=
  promptHead ++ List.intercalate [' '] chunks ++ promptMid ++ question ++ promptTail

/-- Outcome of one `self.model.generate_content(prompt)` call: the call either
raises (with message `str(e)`), or returns a response whose `.text` is absent
(`none`) or is the given, possibly empty, string. -/
inductive BackendResult where
  | raise : List Char → BackendResult
  | resp : Option (List Char) → BackendResult

/-- Message of the `ValueError` raised when a response has no usable text. -/
def invalidMsg : List Char := str "Invalid or empty response received"

/-- Body of one attempt of the retry loop: a response exposing nonempty text is
accepted (`.inl`), anything else falls into the `except` handler with the
caught exception's message (`.inr`). -/
def stepResult : BackendResult → List Char ⊕ List Char
  | .raise msg => .inr msg
  | .resp none => .inr invalidMsg
  | .resp (some t) => if t.isEmpty then .inr invalidMsg else .inl t

/-- Head of the degraded answer recorded when a question exhausts its
retries. -/
def errHead : List Char := str "Could not process this question due to: "

/-- The per-question retry loop of `process_document_questions`, with
`max_retries = 3` unrolled (the loop runs at most three iterations because
`retry_count` increases on every failure and a success breaks out).
`backend` maps the attempt index and the prompt that is sent to the call's
outcome.  The first attempt uses the prompt built before the loop from all
chunks; an iteration with `retry_count > 0` first halves `chunk_size` (which
was initialized to `len(chunks) // 2` before the loop) and rebuilds the prompt
from `chunks[:chunk_size]`.  The second component is the trace of prompts sent
to the backend, in order — the observable effect of the loop. -/
def runQuestion (backend : Nat → List Char → BackendResult)
    (chunks : List (List Char)) (question : List Char) :
    List Char × List (List Char) :=
  let prompt0 := mkPrompt chunks question
  let chunk_size := chunks.length / 2
  match stepResult (backend 0 prompt0) with
  | .inl ans => (ans, [prompt0])
  | .inr _ =>
    let cs1 := chunk_size / 2
    let prompt1 := mkPrompt (chunks.take cs1) question
    match stepResult (backend 1 prompt1) with
    | .inl ans => (ans, [prompt0, prompt1])
    | .inr _ =>
      let cs2 := cs1 / 2
      let prompt2 := mkPrompt (chunks.take cs2) question
      match stepResult (backend 2 prompt2) with
      | .inl ans => (ans, [prompt0, prompt1, prompt2])
      | .inr msg => (errHead ++ msg, [prompt0, prompt1, prompt2])

/-- File suffix chosen by `download_document`. -/
inductive DocSuffix where
  | pdf
  | docx
  deriving DecidableEq

/-- Text of a `DocSuffix`. -/
def sfxStr : DocSuffix → List Char
  | .pdf => str ".pdf"
  | .docx => str ".docx"

/-- Python substring containment `needle in hay`. -/
def strIn (needle : List Char) : List Char → Bool
  | [] => needle.isEmpty
  | c :: cs => needle.isPrefixOf (c :: cs) || strIn needle cs

/-- First branch test of the classification in `download_document`:
`'pdf' in content_type.lower() or url.lower().endswith('.pdf')`. -/
def pdfSignal (content_type url : List Char) : Bool :=
  strIn (str "pdf") (lower content_type) || (str ".pdf").isSuffixOf (lower url)

/-- Second branch test of the classification in `download_document`:
`'word' in content_type.lower() or url.lower().endswith('.docx')`. -/
def wordSignal (content_type url : List Char) : Bool :=
  strIn (str "word") (lower content_type) || (str ".docx").isSuffixOf (lower url)

/-- Format classification of `download_document`: the `if`/`elif`/`else` over
the two signals; `none` is the `ValueError("Unsupported document type...")`
branch. -/
def classify (content_type url : List Char) : Option DocSuffix :=
  if pdfSignal content_type url then some .pdf
  else if wordSignal content_type url then some .docx
  else none

/-- `DocumentService.download_document(url)`.  `transport` is the outcome of
`requests.get(url, verify=True)` together with `raise_for_status`: a
transport-level exception message, or the declared content type and body.
`writeOk` is whether the temporary file is verified present after the write
(`os.path.exists`), and `tempStem` is the unique name chosen by
`tempfile.NamedTemporaryFile`, to which the classified suffix is appended.
Exception wrapping follows the two `except` clauses of the source. -/
def download_document (transport : Except (List Char) (List Char × List Char))
    (url : List Char) (writeOk : Bool) (tempStem : List Char) :
    Except (List Char) (List Char) :=
  match transport with
  | .error e => .error (str "Error downloading document: " ++ e)
  | .ok ctBody =>
    match classify ctBody.1 url with
    | none =>
      .error (str "Error handling document: Unsupported document type. Only PDF and DOCX are supported.")
    | some sfx =>
      if writeOk then .ok (tempStem ++ sfxStr sfx)
      else
        .error (str "Error handling document: Failed to create temporary file at "
          ++ (tempStem ++ sfxStr sfx))

/-- The page loop of the PDF branch of `extract_text_from_document`:
`for page in reader.pages: text += page.extract_text() + "\n"`.  Each element
of `pages` is the text `page.extract_text()` returns for that page — the
empty string when the page yields no text, which is the pypdf library's
contract for unextractable pages. -/
def pdfPagesLoop : List (List Char) → List Char → List Char
  | [], text => text
  | p :: ps, text => pdfPagesLoop ps (text ++ p ++ ['\n'])

/-- `DocumentService.extract_text_from_document(file_path)` on the happy paths
of the parsing libraries: `pdfPages` are the per-page texts a `PdfReader`
yields, `docxParas` the per-paragraph texts of a `Document` (library-level
parse exceptions are not modelled; orchestration-level theorems take the whole
extractor as an oracle instead). -/
def extract_text_from_document (file_path : List Char)
    (pdfPages : List (List Char)) (docxParas : List (List Char)) :
    Except (List Char) (List Char) :=
  if (str ".pdf").isSuffixOf file_path then
    let text := pdfPagesLoop pdfPages []
    if (pyStrip text).isEmpty then
      .error (str "Error extracting text from document: No text could be extracted from the document")
    else .ok text
  else if (str ".docx").isSuffixOf file_path then
    let text := List.intercalate ['\n'] docxParas
    if (pyStrip text).isEmpty then
      .error (str "Error extracting text from document: No text could be extracted from the document")
    else .ok text
  else .error (str "Error extracting text from document: Unsupported file format")

/-- `DocumentService.process_document_questions(document_url, questions)`.
`extract` is the extractor applied to the downloaded file path (the behavior
of `extract_text_from_document`, abstracted because it depends on the parsing
libraries); `backend` gives the generative backend's behavior for a question
(attempt index and prompt to outcome); `unlinkOk` is whether the final
`os.unlink` succeeds (its failure is only warned about).  The first component
is the returned answer list or the raised, wrapped exception message; the
second records whether the transient file exists after the call — `false`
when it was never created (download failed before or at the
`os.path.exists` check) and otherwise `true` unless the cleanup ran and
succeeded. -/
def process_document_questions (transport : Except (List Char) (List Char × List Char))
    (url : List Char) (writeOk : Bool) (tempStem : List Char)
    (extract : List Char → Except (List Char) (List Char))
    (backend : List Char → Nat → List Char → BackendResult)
    (unlinkOk : Bool) (questions : List (List Char)) :
    Except (List Char) (List (List Char)) × Bool :=
  match download_document transport url writeOk tempStem with
  | .error e => (.error (str "Error processing document: " ++ e), false)
  | .ok file_path =>
    match extract file_path with
    | .error e => (.error (str "Error processing document: " ++ e), true)
    | .ok text =>
      (.ok (questions.map (fun q => (runQuestion (backend q) (chunk_text text 1000) q).1)),
        !unlinkOk)

/-- Test fixture: a transport result delivering a pdf content type. -/
def okTransport : Except (List Char) (List Char × List Char) :=
  .ok (str "application/pdf", str "BODY")

/-- Test fixture: an extractor that succeeds with a fixed text. -/
def wExtract : List Char → Except (List Char) (List Char) :=
  fun _ => .ok (str "Alpha beta. Gamma!")

/-- Test fixture: an extractor that raises a (wrapped) parse failure. -/
def failExtract : List Char → Except (List Char) (List Char) :=
  fun _ => .error (str "Error extracting text from document: parse failure")

/-- Test fixture: a generative backend that raises on every call, for every
question. -/
def wFailBackend : List Char → Nat → List Char → BackendResult :=
  fun _ _ _ => .raise (str "quota")

/-- Test fixture: a single-question backend that raises on every call. -/
def failB : Nat → List Char → BackendResult := fun _ _ => .raise (str "boom")

/-- Test fixture: eight distinct chunks. -/
def chunks8 : List (List Char) :=
  [str "c1", str "c2", str "c3", str "c4", str "c5", str "c6", str "c7", str "c8"]

theorem mkChunk_nil : mkChunk [] = [] := rfl

theorem mkChunk_single (s : List Char) : mkChunk [s] = s ++ ['.', ' '] := by
  simp [mkChunk]

theorem mkChunk_append_single (g : List (List Char)) (s : List Char) :
    mkChunk (g ++ [s]) = mkChunk g ++ (s ++ ['.', ' ']) := by
  simp [mkChunk]

theorem mkChunk_isEmpty (g : List (List Char)) : (mkChunk g).isEmpty = g.isEmpty := by
  cases g with
  | nil => rfl
  | cons a t => simp [mkChunk]

theorem mkChunk_ne_nil {g : List (List Char)} (h : g ≠ []) : mkChunk g ≠ [] := by
  intro hc
  have he := mkChunk_isEmpty g
  rw [hc] at he
  simp only [List.isEmpty_nil] at he
  exact h (List.isEmpty_iff.mp he.symm)

theorem chunkLoop_acc (size : Int) (sents : List (List Char)) (acc : List (List Char))
    (cur : List Char) :
    chunkLoop size sents acc cur = acc ++ chunkLoop size sents [] cur := by
  induction sents generalizing acc cur with
  | nil =>
    simp only [chunkLoop]
    split <;> simp
  | cons s rest ih =>
    simp only [chunkLoop]
    split
    · exact ih acc cur
    · split
      · exact ih acc _
      · rw [ih, ih]
        split
        · simp
        · rw [ih ([] ++ [cur])]
          simp

theorem chunkLoop_eq_groupAux (size : Int) (sents : List (List Char))
    (gcur : List (List Char)) :
    chunkLoop size sents [] (mkChunk gcur) = (groupAux size (cleanse sents) gcur).map mkChunk := by
  induction sents generalizing gcur with
  | nil =>
    simp only [chunkLoop, cleanse, List.map_nil, List.filter_nil, groupAux]
    rw [mkChunk_isEmpty]
    split <;> simp
  | cons s rest ih =>
    by_cases hs : (pyStrip s).isEmpty
    · have hcl : cleanse (s :: rest) = cleanse rest := by simp [cleanse, hs]
      rw [hcl]
      simp only [chunkLoop]
      rw [if_pos hs]
      exact ih gcur
    · have hcl : cleanse (s :: rest) = pyStrip s :: cleanse rest := by simp [cleanse, hs]
      rw [hcl]
      simp only [chunkLoop]
      rw [if_neg hs]
      by_cases hfit : (((mkChunk gcur).length + (pyStrip s).length : Nat) : Int) < size
      · rw [if_pos hfit]
        have hm : mkChunk gcur ++ (pyStrip s ++ ['.', ' ']) = mkChunk (gcur ++ [pyStrip s]) :=
          (mkChunk_append_single _ _).symm
        rw [hm, ih (gcur ++ [pyStrip s])]
        simp only [groupAux]
        rw [if_pos hfit]
      · rw [if_neg hfit]
        rw [chunkLoop_acc]
        have hm : pyStrip s ++ ['.', ' '] = mkChunk [pyStrip s] := (mkChunk_single _).symm
        rw [hm, ih [pyStrip s]]
        simp only [groupAux]
        rw [if_neg hfit, List.map_append]
        congr 1
        rw [mkChunk_isEmpty]
        split <;> simp

theorem chunk_text_groups (text : List Char) (size : Int) :
    chunk_text text size = (groupAux size (sentencesOf text) []).map mkChunk := by
  have h := chunkLoop_eq_groupAux size (splitTerm text) []
  rw [mkChunk_nil] at h
  exact h

theorem groupAux_flatten (size : Int) (sents : List (List Char)) (gcur : List (List Char)) :
    (groupAux size sents gcur).flatten = gcur ++ sents := by
  induction sents generalizing gcur with
  | nil =>
    simp only [groupAux]
    split
    · simp_all [List.isEmpty_iff]
    · simp
  | cons s rest ih =>
    simp only [groupAux]
    split
    · rw [ih]
      simp
    · rw [List.flatten_append, ih]
      split <;> simp_all [List.isEmpty_iff]

theorem groupAux_ne_nil (size : Int) (sents : List (List Char)) (gcur : List (List Char)) :
    ∀ g ∈ groupAux size sents gcur, g ≠ [] := by
  induction sents generalizing gcur with
  | nil =>
    intro g hg
    simp only [groupAux] at hg
    split at hg
    · simp at hg
    · simp only [List.mem_singleton] at hg
      subst hg
      simp_all [List.isEmpty_iff]
  | cons s rest ih =>
    intro g hg
    simp only [groupAux] at hg
    split at hg
    · exact ih _ g hg
    · rw [List.mem_append] at hg
      rcases hg with hg | hg
      · split at hg
        · simp at hg
        · simp only [List.mem_singleton] at hg
          subst hg
          simp_all [List.isEmpty_iff]
      · exact ih [s] g hg

theorem groupAux_bound (size : Int) (sents : List (List Char)) (gcur : List (List Char))
    (hcur : gcur = [] ∨ (∃ s, gcur = [s]) ∨ ((mkChunk gcur).length : Int) < size + 2) :
    ∀ g ∈ groupAux size sents gcur,
      (∃ s, g = [s]) ∨ ((mkChunk g).length : Int) < size + 2 := by
  induction sents generalizing gcur with
  | nil =>
    intro g hg
    simp only [groupAux] at hg
    split at hg
    · simp at hg
    · simp only [List.mem_singleton] at hg
      subst hg
      rcases hcur with h | h | h
      · simp_all [List.isEmpty_iff]
      · exact Or.inl h
      · exact Or.inr h
  | cons s rest ih =>
    intro g hg
    simp only [groupAux] at hg
    split at hg
    case isTrue hfit =>
      refine ih (gcur ++ [s]) ?_ g hg
      right; right
      rw [mkChunk_append_single]
      simp only [List.length_append, List.length_cons, List.length_nil]
      push_cast
      push_cast at hfit
      omega
    case isFalse hfit =>
      rw [List.mem_append] at hg
      rcases hg with hg | hg
      · split at hg
        · simp at hg
        · simp only [List.mem_singleton] at hg
          subst hg
          rcases hcur with h | h | h
          · simp_all [List.isEmpty_iff]
          · exact Or.inl h
          · exact Or.inr h
      · exact ih [s] (Or.inr (Or.inl ⟨s, rfl⟩)) g hg

theorem groupAux_small (size : Int) (hsize : size ≤ 0) :
    ∀ (sents : List (List Char)), (∀ s ∈ sents, s ≠ []) → ∀ (gcur : List (List Char)),
      groupAux size sents gcur =
        (if gcur.isEmpty then [] else [gcur]) ++ sents.map (fun s => [s]) := by
  intro sents
  induction sents with
  | nil =>
    intro _ gcur
    simp [groupAux]
  | cons s rest ih =>
    intro hs gcur
    have hsne : s ≠ [] := hs s (List.mem_cons_self _ _)
    have h1 : 1 ≤ s.length := by
      cases s with
      | nil => exact absurd rfl hsne
      | cons a t => simp
    have hnofit : ¬ (((mkChunk gcur).length + s.length : Nat) : Int) < size := by
      push_cast
      omega
    simp only [groupAux]
    rw [if_neg hnofit]
    rw [ih (fun t ht => hs t (List.mem_cons_of_mem _ ht)) [s]]
    simp

theorem flatten_map_mkChunk (gss : List (List (List Char))) :
    (gss.map mkChunk).flatten = (gss.flatten.map (fun s => s ++ ['.', ' '])).flatten := by
  induction gss with
  | nil => rfl
  | cons g rest ih =>
    simp [mkChunk, ih, List.map_append, List.flatten_append]

theorem mkChunk_end (g : List (List Char)) (h : g ≠ []) : ['.', ' '] <:+ mkChunk g := by
  induction g with
  | nil => exact absurd rfl h
  | cons s rest ih =>
    cases rest with
    | nil =>
      refine ⟨s, ?_⟩
      simp [mkChunk]
    | cons a t =>
      obtain ⟨u, hu⟩ := ih (by simp)
      refine ⟨(s ++ ['.', ' ']) ++ u, ?_⟩
      have hm : mkChunk (s :: a :: t) = (s ++ ['.', ' ']) ++ mkChunk (a :: t) := by
        simp [mkChunk]
      rw [hm, ← hu]
      simp

theorem mem_cleanse_ne_nil {l : List (List Char)} {s : List Char} (h : s ∈ cleanse l) :
    s ≠ [] := by
  simp only [cleanse, List.mem_filter] at h
  intro hc
  subst hc
  simp at h

/-- C6: `chunk_text` applied to the empty string and to the whitespace-only
string `"   "` returns an empty chunk sequence (shown here for every chunk
size, which covers the default 1000). -/
theorem c6_chunk_text_empty :
    ∀ size : Int, chunk_text (str "") size = [] ∧ chunk_text (str "   ") size = [] :=
  fun _ => ⟨rfl, rfl⟩

/-- C10: for every input text and chunk size, every chunk returned by
`chunk_text` is nonempty and ends with the exact two-character suffix `". "`,
regardless of which terminator originally ended its sentences (terminators are
removed by the split, and each sentence is re-suffixed with `". "`). -/
theorem c10_chunk_end (text : List Char) (size : Int) (c : List Char)
    (h : c ∈ chunk_text text size) : c ≠ [] ∧ ['.', ' '] <:+ c := by
  rw [chunk_text_groups] at h
  rcases List.mem_map.mp h with ⟨g, hg, rfl⟩
  have hne : g ≠ [] := groupAux_ne_nil size (sentencesOf text) [] g hg
  exact ⟨mkChunk_ne_nil hne, mkChunk_end g hne⟩

theorem c10_witness :
    str "Hi. " ∈ chunk_text (str "Hi!") 1000 ∧
      (str "Hi. " ≠ [] ∧ ['.', ' '] <:+ str "Hi. ") :=
  ⟨by decide, c10_chunk_end (str "Hi!") 1000 (str "Hi. ") (by decide)⟩

/-- C5: for every text whose sentence segmentation is nonempty, concatenating
the chunks of `chunk_text` in order yields exactly the segmented sentences
each carrying the added `". "` suffix — so removing those suffixes
reconstructs the original sentence sequence. -/
theorem c5_concat_reconstructs (text : List Char) (size : Int)
    (h : sentencesOf text ≠ []) :
    (chunk_text text size).flatten =
      ((sentencesOf text).map (fun s => s ++ ['.', ' '])).flatten := by
  rw [chunk_text_groups, flatten_map_mkChunk, groupAux_flatten]
  simp

theorem c5_witness :
    sentencesOf (str "One. Two!") ≠ [] ∧
      (chunk_text (str "One. Two!") 1000).flatten =
        ((sentencesOf (str "One. Two!")).map (fun s => s ++ ['.', ' '])).flatten :=
  ⟨by decide, c5_concat_reconstructs (str "One. Two!") 1000 (by decide)⟩

/-- C4 is falsified at maxChunkSize 5 on "abc. defg. hi.": the produced chunks
are "abc. " (length 5) and "defg. " (length 6) followed by "hi. ", so
non-final chunks reach lengths 5 and 6 although every sentence of the text has
length < 5 (no chunk is formed from an oversized sentence). -/
theorem c4_counterexample :
    chunk_text (str "abc. defg. hi.") 5 = [str "abc. ", str "defg. ", str "hi. "] ∧
    ¬ (∀ c ∈ (chunk_text (str "abc. defg. hi.") 5).dropLast, (c.length : Int) < 5) ∧
    (∀ s ∈ sentencesOf (str "abc. defg. hi."), (s.length : Int) < 5) := by decide

/-- C4 (amended): for every text and positive maxChunkSize the chunk sequence
is the image under `mkChunk` of a partition of the sentence sequence into
nonempty consecutive groups — no sentence is ever split across chunks — and
every chunk has length < maxChunkSize + 2 (the `". "` suffix of the closing
sentence may push a chunk up to maxChunkSize + 1) except chunks formed from a
single oversized sentence (length ≥ maxChunkSize), which can occur at any
position, not only at the end. -/
theorem c4_amended_bound (text : List Char) (size : Int) (hpos : 0 < size) :
    ∃ gss : List (List (List Char)),
      gss.flatten = sentencesOf text ∧
      (∀ g ∈ gss, g ≠ []) ∧
      chunk_text text size = gss.map mkChunk ∧
      ∀ g ∈ gss, ((mkChunk g).length : Int) < size + 2 ∨
        ∃ s, g = [s] ∧ s ∈ sentencesOf text ∧ size ≤ (s.length : Int) := by
  refine ⟨groupAux size (sentencesOf text) [], ?_, ?_, chunk_text_groups text size, ?_⟩
  · rw [groupAux_flatten]
    simp
  · exact groupAux_ne_nil size (sentencesOf text) []
  · intro g hg
    rcases groupAux_bound size (sentencesOf text) [] (Or.inl rfl) g hg with ⟨s, rfl⟩ | hlt
    · by_cases hlen : (s.length : Int) < size
      · left
        rw [mkChunk_single]
        simp only [List.length_append, List.length_cons, List.length_nil]
        push_cast
        omega
      · right
        refine ⟨s, rfl, ?_, by omega⟩
        have hmem : s ∈ (groupAux size (sentencesOf text) []).flatten :=
          List.mem_flatten.mpr ⟨[s], hg, List.mem_singleton.mpr rfl⟩
        rw [groupAux_flatten] at hmem
        simpa using hmem
    · exact Or.inl hlt

theorem c4_witness :
    (0 : Int) < 5 ∧
      ∃ gss : List (List (List Char)),
        gss.flatten = sentencesOf (str "abc. defg. hi.") ∧
        (∀ g ∈ gss, g ≠ []) ∧
        chunk_text (str "abc. defg. hi.") 5 = gss.map mkChunk ∧
        ∀ g ∈ gss, ((mkChunk g).length : Int) < 5 + 2 ∨
          ∃ s, g = [s] ∧ s ∈ sentencesOf (str "abc. defg. hi.") ∧ 5 ≤ (s.length : Int) :=
  ⟨by decide, c4_amended_bound (str "abc. defg. hi.") 5 (by decide)⟩

/-- C7 is falsified: `chunk_text` has no raising code path — called with
maxChunkSize 0 or with a negative maxChunkSize it returns a chunk sequence
(one chunk per sentence) instead of failing with a ConfigurationError; no such
error exists in the code. -/
theorem c7_counterexample :
    chunk_text (str "Hi there. Bye!") 0 = [str "Hi there. ", str "Bye. "] ∧
    chunk_text (str "Hi there. Bye!") (-7) = [str "Hi there. ", str "Bye. "] := by decide

/-- C7 (amended): `chunk_text` is pure, deterministic and total, with no
failure mode at all; for every maxChunkSize ≤ 0 it does not raise but returns
each stripped sentence as its own chunk, `". "` appended. -/
theorem c7_amended_total (text : List Char) (size : Int) (h : size ≤ 0) :
    chunk_text text size = (sentencesOf text).map (fun s => s ++ ['.', ' ']) := by
  rw [chunk_text_groups]
  rw [groupAux_small size h (sentencesOf text) (fun s hs => mem_cleanse_ne_nil hs) []]
  simp [mkChunk_single]

theorem c7_witness :
    (0 : Int) ≤ 0 ∧
      chunk_text (str "Hi there. Bye!") 0 =
        (sentencesOf (str "Hi there. Bye!")).map (fun s => s ++ ['.', ' ']) :=
  ⟨by decide, c7_amended_total (str "Hi there. Bye!") 0 (by decide)⟩

theorem pdfPagesLoop_acc (pages : List (List Char)) :
    ∀ acc, pdfPagesLoop pages acc = acc ++ (pages.map (fun p => p ++ ['\n'])).flatten := by
  induction pages with
  | nil =>
    intro acc
    simp [pdfPagesLoop]
  | cons p ps ih =>
    intro acc
    simp [pdfPagesLoop, ih]

/-- C9: the PDF page loop of `extract_text_from_document` concatenates the
pages' extracted texts in page order, with one newline separator per page; a
page that fails to yield text — for which the parsing library's
`page.extract_text()` returns the empty string — contributes only the empty
string, and the pages after it are still extracted: the loop has no abort
path. -/
theorem c9_pdf_page_concat :
    (∀ pages : List (List Char),
      pdfPagesLoop pages [] = (pages.map (fun p => p ++ ['\n'])).flatten) ∧
    (∀ pre post : List (List Char),
      pdfPagesLoop (pre ++ [] :: post) [] =
        pdfPagesLoop pre [] ++ ['\n'] ++ pdfPagesLoop post []) := by
  constructor
  · intro pages
    simpa using pdfPagesLoop_acc pages []
  · intro pre post
    simp [pdfPagesLoop_acc, List.map_append, List.flatten_append]

set_option maxRecDepth 8000 in
/-- C3 is falsified: with 8 chunks and a backend failing on every call, the
prompts actually sent are built from all 8 chunks, then `chunks[:2]`
(8 // 4), then `chunks[:1]` (8 // 8) — while the claim requires the first
retry to use `chunks[:4]` (8 // 2); the prompt from 2 chunks differs from the
prompt from 4 chunks. -/
theorem c3_counterexample :
    (runQuestion failB chunks8 (str "Q")).2 =
      [mkPrompt chunks8 (str "Q"),
        mkPrompt (chunks8.take 2) (str "Q"),
        mkPrompt (chunks8.take 1) (str "Q")] ∧
    chunks8.length / 2 = 4 ∧
    mkPrompt (chunks8.take 2) (str "Q") ≠ mkPrompt (chunks8.take 4) (str "Q") := by
  refine ⟨rfl, rfl, ?_⟩
  decide

/-- C3 (amended): for every question whose first backend attempt fails, the
retries use the leading `chunks[:chunk_size]` window where `chunk_size` is
`len(chunks) // 4` on the first retry (the variable is initialized to
`len(chunks) // 2` before the loop but halved again before its first use) and
`len(chunks) // 8` on the second; at most 3 attempts total are made per
question. -/
theorem c3_amended_retry_windows (backend : Nat → List Char → BackendResult)
    (chunks : List (List Char)) (question : List Char)
    (h : ∃ m, stepResult (backend 0 (mkPrompt chunks question)) = .inr m) :
    ∃ rest,
      (runQuestion backend chunks question).2 =
        mkPrompt chunks question ::
          mkPrompt (chunks.take (chunks.length / 4)) question :: rest ∧
      rest <:+ [mkPrompt (chunks.take (chunks.length / 8)) question] ∧
      (runQuestion backend chunks question).2.length ≤ 3 := by
  obtain ⟨m0, h0⟩ := h
  simp only [runQuestion, h0]
  rw [show chunks.length / 2 / 2 = chunks.length / 4 by omega]
  rw [show chunks.length / 4 / 2 = chunks.length / 8 by omega]
  cases h1 : stepResult (backend 1 (mkPrompt (chunks.take (chunks.length / 4)) question)) with
  | inl ans =>
    refine ⟨[], by simp,
      ⟨[mkPrompt (chunks.take (chunks.length / 8)) question], by simp⟩, by simp⟩
  | inr m1 =>
    cases h2 : stepResult
        (backend 2 (mkPrompt (chunks.take (chunks.length / 8)) question)) with
    | inl ans =>
      exact ⟨[mkPrompt (chunks.take (chunks.length / 8)) question], by simp,
        List.suffix_refl _, by simp⟩
    | inr m2 =>
      exact ⟨[mkPrompt (chunks.take (chunks.length / 8)) question], by simp,
        List.suffix_refl _, by simp⟩

theorem c3_witness :
    (∃ m, stepResult (failB 0 (mkPrompt chunks8 (str "Q"))) = .inr m) ∧
    ∃ rest,
      (runQuestion failB chunks8 (str "Q")).2 =
        mkPrompt chunks8 (str "Q") ::
          mkPrompt (chunks8.take (chunks8.length / 4)) (str "Q") :: rest ∧
      rest <:+ [mkPrompt (chunks8.take (chunks8.length / 8)) (str "Q")] ∧
      (runQuestion failB chunks8 (str "Q")).2.length ≤ 3 :=
  ⟨⟨str "boom", rfl⟩, c3_amended_retry_windows failB chunks8 (str "Q") ⟨str "boom", rfl⟩⟩

theorem runQuestion_allFail (backend : Nat → List Char → BackendResult)
    (chunks : List (List Char)) (question : List Char)
    (hB : ∀ n p, ∃ m, stepResult (backend n p) = .inr m) :
    ∃ m, (runQuestion backend chunks question).1 = errHead ++ m := by
  obtain ⟨m0, h0⟩ := hB 0 (mkPrompt chunks question)
  obtain ⟨m1, h1⟩ := hB 1 (mkPrompt (chunks.take (chunks.length / 2 / 2)) question)
  obtain ⟨m2, h2⟩ := hB 2 (mkPrompt (chunks.take (chunks.length / 2 / 2 / 2)) question)
  exact ⟨m2, by simp only [runQuestion, h0, h1, h2]⟩

/-- C1: whenever `process_document_questions` returns an answer list (rather
than raising), that list has the same length as the question list and is
positionally aligned with it (entry i is the retry loop's result for question
i over the chunks of the extracted text); and when the generative backend
fails on every call, every entry is a nonempty string made of the error head
`"Could not process this question due to: "` followed by the last failure's
message. -/
theorem c1_process_aligned (transport : Except (List Char) (List Char × List Char))
    (url : List Char) (writeOk : Bool) (tempStem : List Char)
    (extract : List Char → Except (List Char) (List Char))
    (backend : List Char → Nat → List Char → BackendResult)
    (unlinkOk : Bool) (questions : List (List Char))
    (answers : List (List Char)) (fileLeft : Bool)
    (h : process_document_questions transport url writeOk tempStem extract backend unlinkOk
      questions = (.ok answers, fileLeft)) :
    answers.length = questions.length ∧
    ((∀ q n p, ∃ m, stepResult (backend q n p) = .inr m) →
      ∀ a ∈ answers, a ≠ [] ∧ ∃ m, a = errHead ++ m) ∧
    ∃ fp text, download_document transport url writeOk tempStem = .ok fp ∧
      extract fp = .ok text ∧
      answers = questions.map (fun q => (runQuestion (backend q) (chunk_text text 1000) q).1) := by
  unfold process_document_questions at h
  split at h
  · simp at h
  · rename_i fp hd
    split at h
    · simp at h
    · rename_i text he
      simp only [Prod.mk.injEq, Except.ok.injEq] at h
      obtain ⟨hans, hleft⟩ := h
      subst hans
      refine ⟨by simp, ?_, fp, text, hd, he, rfl⟩
      intro hB a ha
      rw [List.mem_map] at ha
      obtain ⟨q, hq, hqa⟩ := ha
      obtain ⟨m, hm⟩ := runQuestion_allFail (backend q) (chunk_text text 1000) q (hB q)
      subst hqa
      rw [hm]
      refine ⟨?_, m, rfl⟩
      intro hc
      have hne : errHead ≠ [] := by decide
      exact hne (List.append_eq_nil.mp hc).1

theorem c1_witness :
    ([errHead ++ str "quota", errHead ++ str "quota"].length = [str "Q1", str "Q2"].length) ∧
    ((∀ q n p, ∃ m, stepResult (wFailBackend q n p) = .inr m) →
      ∀ a ∈ [errHead ++ str "quota", errHead ++ str "quota"], a ≠ [] ∧ ∃ m, a = errHead ++ m) ∧
    ∃ fp text, download_document okTransport (str "https://h/x.pdf") true (str "/tmp/t1") = .ok fp ∧
      wExtract fp = .ok text ∧
      [errHead ++ str "quota", errHead ++ str "quota"] =
        [str "Q1", str "Q2"].map
          (fun q => (runQuestion (wFailBackend q) (chunk_text text 1000) q).1) :=
  c1_process_aligned okTransport (str "https://h/x.pdf") true (str "/tmp/t1") wExtract
    wFailBackend true [str "Q1", str "Q2"]
    [errHead ++ str "quota", errHead ++ str "quota"] false rfl

/-- C2 is falsified: on a run where the download succeeds (transient file
created) and extraction then fails, `process_document_questions` raises the
wrapped extraction error while the transient file still exists (the
`os.unlink` cleanup sits after the question loop inside the `try`, so the
failure path never reaches it). -/
theorem c2_counterexample :
    process_document_questions okTransport (str "https://h/x.pdf") true (str "/tmp/t1")
        failExtract wFailBackend true [str "Q1"] =
      (.error (str "Error processing document: Error extracting text from document: parse failure"),
        true) := rfl

/-- C2 (corrected): after a successful download, the transient file is gone
after `process_document_questions` finishes if and only if extraction
succeeded and the unlink call succeeded; in particular a post-fetch extraction
failure leaks the file (the error is still propagated), and an unlink failure
is only warned about, never escalated. -/
theorem c2_amended_cleanup (transport : Except (List Char) (List Char × List Char))
    (url : List Char) (writeOk : Bool) (tempStem : List Char)
    (extract : List Char → Except (List Char) (List Char))
    (backend : List Char → Nat → List Char → BackendResult)
    (unlinkOk : Bool) (questions : List (List Char)) (fp : List Char)
    (h : download_document transport url writeOk tempStem = .ok fp) :
    ((process_document_questions transport url writeOk tempStem extract backend unlinkOk
        questions).2 = false ↔ (∃ t, extract fp = .ok t) ∧ unlinkOk = true) := by
  unfold process_document_questions
  rw [h]
  rcases he : extract fp with e | t
  · simp [he]
  · simp [he]

theorem c2_witness :
    download_document okTransport (str "https://h/x.pdf") true (str "/tmp/t1") =
      .ok (str "/tmp/t1.pdf") ∧
    ((process_document_questions okTransport (str "https://h/x.pdf") true (str "/tmp/t1")
        wExtract wFailBackend true [str "Q1"]).2 = false ↔
      (∃ t, wExtract (str "/tmp/t1.pdf") = .ok t) ∧ true = true) :=
  ⟨rfl, c2_amended_cleanup okTransport (str "https://h/x.pdf") true (str "/tmp/t1") wExtract
    wFailBackend true [str "Q1"] (str "/tmp/t1.pdf") rfl⟩

/-- C8 is falsified in its ordering clause: for the content type
"application/word" — decisive for word (it contains "word" and not "pdf") —
and a URL ending in ".pdf", the code classifies the document as PDF: the URL
suffix test sits inside the first branch as an alternative trigger, it is not
a fallback used only when the content type is indecisive. -/
theorem c8_counterexample :
    classify (str "application/word") (str "http://h/doc.pdf") = some DocSuffix.pdf ∧
    strIn (str "word") (lower (str "application/word")) = true ∧
    strIn (str "pdf") (lower (str "application/word")) = false := by decide

/-- C8 (corrected): classification runs two ordered branch tests — PDF when
"pdf" occurs in the lowercased content type or the lowercased URL ends in
".pdf", else DOCX when "word" occurs in the content type or the URL ends in
".docx" — so the URL suffix is an in-branch alternative, not a fallback
reserved for indecisive content types.  Only these two signals are
recognized: when both tests fail, processing fails with the wrapped
unsupported-type error, no transient file exists, and the extractor is never
consulted (the outcome is identical for any two extractors). -/
theorem c8_amended_classification (content_type body url tempStem : List Char) (writeOk : Bool)
    (extract extract' : List Char → Except (List Char) (List Char))
    (backend : List Char → Nat → List Char → BackendResult)
    (unlinkOk : Bool) (questions : List (List Char))
    (h : pdfSignal content_type url = false ∧ wordSignal content_type url = false) :
    process_document_questions (.ok (content_type, body)) url writeOk tempStem extract backend
        unlinkOk questions =
      (.error (str "Error processing document: Error handling document: Unsupported document type. Only PDF and DOCX are supported."),
        false) ∧
    process_document_questions (.ok (content_type, body)) url writeOk tempStem extract backend
        unlinkOk questions =
      process_document_questions (.ok (content_type, body)) url writeOk tempStem extract' backend
        unlinkOk questions := by
  have hcl : classify content_type url = none := by
    simp [classify, h.1, h.2]
  have hdl : download_document (.ok (content_type, body)) url writeOk tempStem =
      .error (str "Error handling document: Unsupported document type. Only PDF and DOCX are supported.") := by
    simp [download_document, hcl]
  constructor
  · unfold process_document_questions
    simp only [hdl]
    rfl
  · unfold process_document_questions
    simp only [hdl]

theorem c8_witness :
    (pdfSignal (str "image/png") (str "http://h/pic.png") = false ∧
      wordSignal (str "image/png") (str "http://h/pic.png") = false) ∧
    (process_document_questions (.ok (str "image/png", str "BODY")) (str "http://h/pic.png")
        true (str "/tmp/t1") wExtract wFailBackend true [str "Q1"] =
      (.error (str "Error processing document: Error handling document: Unsupported document type. Only PDF and DOCX are supported."),
        false) ∧
    process_document_questions (.ok (str "image/png", str "BODY")) (str "http://h/pic.png")
        true (str "/tmp/t1") wExtract wFailBackend true [str "Q1"] =
      process_document_questions (.ok (str "image/png", str "BODY")) (str "http://h/pic.png")
        true (str "/tmp/t1") failExtract wFailBackend true [str "Q1"]) :=
  ⟨⟨by decide, by decide⟩,
    c8_amended_classification (str "image/png") (str "BODY") (str "http://h/pic.png")
      (str "/tmp/t1") true wExtract failExtract wFailBackend true [str "Q1"]
      ⟨by decide, by decide⟩⟩
